import Mathlib

/-!
# Verification of the simple-todo-app CRUD contract

Shallow embedding of the todo server handlers and the client's demo-mode
fallback. The store is a list of rows plus the auto-increment counter of the
`id` primary-key column; timestamps are naturals. `Option String` models a
nullable text column (`none` = SQL NULL); for Update inputs a second `Option`
layer distinguishes an omitted field from an explicit `null`.
-/

/-- A row of the `todos` table: columns `id` (integer primary key), `title`
(text), `description` (nullable text), `completed` (boolean), `created_at`
and `updated_at` (timestamps). -/
structure Todo where
  id : Nat
  title : String
  description : Option String
  completed : Bool
  created_at : Nat
  updated_at : Nat
  deriving Repr, DecidableEq

/-- The todo store: table rows plus the next value of the auto-assigned
`id` sequence. -/
structure Store where
  rows : List Todo
  nextId : Nat
  deriving Repr, DecidableEq

/-- Input of `createTodo`: `{ title, description? }`. `none` covers both an
absent field and an explicit `null` (both are falsy in the handler). -/
structure CreateTodoInput where
  title : String
  description : Option String
  deriving Repr, DecidableEq

/-- Input of `updateTodo`: `{ id, title?, description?, completed? }`. The
outer `Option` marks field presence; for `description` the inner `Option`
carries the explicit `null`. -/
structure UpdateTodoInput where
  id : Nat
  title : Option String
  description : Option (Option String)
  completed : Option Bool
  deriving Repr, DecidableEq

/-- Output of `deleteTodo`: `{ success: boolean }`. -/
structure DeleteResult where
  success : Bool
  deriving Repr, DecidableEq

/-- The JavaScript expression `input.description || null` from
`create_todo.ts`: an absent, null or empty-string (falsy) description
becomes NULL. -/
def falsyToNull (d : Option String) : Option String :=
  match d with
  | none => none
  | some s => if s = "" then none else some s

/-- `createTodo` (src/server/src/handlers/create_todo.ts): insert a row with
`completed = false`, `description` mapped through `input.description || null`,
the next auto-assigned id, and both timestamps defaulted to now; return the
persisted row. -/
def createTodo (st : Store) (now : Nat) (input : CreateTodoInput) :
    Todo × Store :=
  let todo : Todo :=
    { id := st.nextId
      title := input.title
      description := falsyToNull input.description
      completed := false
      created_at := now
      updated_at := now }
  (todo, { rows := st.rows ++ [todo], nextId := st.nextId + 1 })

/-- `toggleTodo` (src/server/src/handlers/toggle_todo.ts): select the row by
id; if none matches, throw `Todo with id ${id} not found`; otherwise UPDATE
the matching rows with `completed = !currentTodo.completed` and
`updated_at = now`, returning the first updated row. -/
def toggleTodo (st : Store) (now : Nat) (id : Nat) :
    Except String (Todo × Store) :=
  match st.rows.find? (fun t => t.id == id) with
  | none => .error ("Todo with id " ++ toString id ++ " not found")
  | some currentTodo =>
    let newRows := st.rows.map (fun t =>
      if t.id == id then
        { t with completed := !currentTodo.completed, updated_at := now }
      else t)
    .ok ({ currentTodo with
            completed := !currentTodo.completed, updated_at := now },
         { st with rows := newRows })

/-- `deleteTodo` (src/unnamed/part_000, i.e. the delete handler): DELETE the
rows matching the id; `success` is true when the affected row count is
positive. Never raises for a missing id. -/
def deleteTodo (st : Store) (id : Nat) : DeleteResult × Store :=
  let remaining := st.rows.filter (fun t => !(t.id == id))
  let rowCount := st.rows.length - remaining.length
  ({ success := rowCount > 0 }, { st with rows := remaining })

/-- The patch a partial Update applies to one matching row: fields present in
the input are written (an explicit `null` description writes NULL), omitted
fields keep the row's value, and `updated_at` is always set to now. -/
def applyPatch (input : UpdateTodoInput) (now : Nat) (t : Todo) : Todo :=
  { t with
    title := input.title.getD t.title
    description := input.description.getD t.description
    completed := input.completed.getD t.completed
    updated_at := now }

/-- Modelled from the spec: the `updateTodo` handler is not under src/ (only
its tests are). Per spec §4.3: fetch the row by `id`; if absent fail with a
generic "not found" condition; otherwise apply only the fields present in
the input (explicit `null` for `description` overwrites with absence) and
always set `updated_at` to the current time; return the updated row. -/
def updateTodo (st : Store) (now : Nat) (input : UpdateTodoInput) :
    Except String (Todo × Store) :=
  match st.rows.find? (fun t => t.id == input.id) with
  | none => .error "Todo not found"
  | some cur =>
    .ok (applyPatch input now cur,
         { st with rows := st.rows.map (fun t =>
             if t.id == input.id then applyPatch input now t else t) })

/-- Newest-creation-first ordering on rows (`ORDER BY created_at DESC`). -/
def byNewest (a b : Todo) : Prop := b.created_at ≤ a.created_at

instance : DecidableRel byNewest := fun a b =>
  inferInstanceAs (Decidable (b.created_at ≤ a.created_at))

instance : IsTotal Todo byNewest :=
  ⟨fun a b => Nat.le_total b.created_at a.created_at⟩

instance : IsTrans Todo byNewest :=
  ⟨fun _ _ _ h h2 => Nat.le_trans h2 h⟩

/-- Modelled from the spec: the `getTodos` handler is not under src/ (only
its tests are). Per spec §4.2: return every record currently in the store,
ordered by creation time, newest first (`ORDER BY created_at DESC`). -/
def getTodos (st : Store) : List Todo :=
  List.insertionSort byNewest st.rows

/-- The store as the caller sees it after `toggleTodo`: unchanged when the
handler throws (it throws before any write). -/
def toggleStore (st : Store) (now : Nat) (id : Nat) : Store :=
  match toggleTodo st now id with
  | .ok (_, st') => st'
  | .error _ => st

/-- The store as the caller sees it after `updateTodo`: unchanged when the
handler fails with not-found (nothing is written). -/
def updateStore (st : Store) (now : Nat) (input : UpdateTodoInput) : Store :=
  match updateTodo st now input with
  | .ok (_, st') => st'
  | .error _ => st

/-- One mutating operation of the external interface. -/
inductive Op where
  | create (input : CreateTodoInput)
  | update (input : UpdateTodoInput)
  | toggle (id : Nat)
  | del (id : Nat)
  deriving Repr, DecidableEq

/-- The store after one operation invoked at time `now`. -/
def applyOp (st : Store) (now : Nat) : Op → Store
  | .create input => (createTodo st now input).2
  | .update input => updateStore st now input
  | .toggle id => toggleStore st now id
  | .del id => (deleteTodo st id).2

/-- Run a sequence of timestamped operations from a store. -/
def runOps : Store → List (Nat × Op) → Store
  | st, [] => st
  | st, (now, op) :: rest => runOps (applyOp st now op) rest

/-- The ids handed out by the Create steps of a run, in order. -/
def createdIds : Store → List (Nat × Op) → List Nat
  | _, [] => []
  | st, (now, op) :: rest =>
    match op with
    | .create _ => st.nextId :: createdIds (applyOp st now op) rest
    | _ => createdIds (applyOp st now op) rest

/-- The store invariants of spec §3: ids are below the auto-increment
counter, no id occurs twice, and `created_at ≤ updated_at` on every row. -/
def Store.WF (st : Store) : Prop :=
  (∀ t ∈ st.rows, t.id < st.nextId) ∧
  (st.rows.map Todo.id).Nodup ∧
  (∀ t ∈ st.rows, t.created_at ≤ t.updated_at)

/-- The demo-mode fallback of `handleToggle` (src/client/src/App.tsx): map
over the local list, flipping `completed` and refreshing `updated_at` on the
matching id. -/
def handleToggleDemo (todos : List Todo) (now : Nat) (id : Nat) :
    List Todo :=
  todos.map (fun todo =>
    if todo.id == id then
      { todo with completed := !todo.completed, updated_at := now }
    else todo)

/-- The demo-mode fallback of `handleDelete` (src/client/src/App.tsx):
filter the matching id out of the local list. -/
def handleDeleteDemo (todos : List Todo) (id : Nat) : List Todo :=
  todos.filter (fun todo => !(todo.id == id))

/-- The client description `onChange` handler (src/client/src/App.tsx):
`e.target.value || null` converts an empty textarea back to `null`. -/
def descriptionOnChange (value : String) : Option String :=
  if value = "" then none else some value

example :
    (createTodo ⟨[], 1⟩ 5 ⟨"A", some ""⟩).1.description = none := by rfl

example :
    (createTodo ⟨[], 1⟩ 5 ⟨"A", some "x"⟩).1.description = some "x" := by rfl

/-! ## Helper lemmas -/

/-- When the ids in a list are distinct, lookup by the id of a member finds
exactly that member. -/
theorem find_by_id_of_mem (l : List Todo) (id : Nat) (cur : Todo)
    (hnd : (l.map Todo.id).Nodup) (hmem : cur ∈ l) (hid : cur.id = id) :
    l.find? (fun t => t.id == id) = some cur := by
  induction l with
  | nil => simp at hmem
  | cons a l ih =>
    rw [List.map_cons, List.nodup_cons] at hnd
    rcases List.mem_cons.mp hmem with rfl | hmem2
    · exact List.find?_cons_of_pos _ (by simp [hid])
    · have hne : a.id ≠ id := by
        intro hcontra
        exact hnd.1 (hcontra ▸ hid ▸ List.mem_map_of_mem Todo.id hmem2)
      rw [List.find?_cons_of_neg _ (by simp [hne])]
      exact ih hnd.2 hmem2

/-- A lookup that succeeds returns a member whose id matches. -/
theorem find_by_id_mem (l : List Todo) (id : Nat) (cur : Todo)
    (h : l.find? (fun t => t.id == id) = some cur) :
    cur ∈ l ∧ cur.id = id := by
  refine ⟨List.mem_of_find?_eq_some h, ?_⟩
  have := List.find?_some h
  simpa using this

example :
    ([(⟨3, "a", none, false, 0, 0⟩ : Todo), ⟨5, "b", none, true, 1, 1⟩].find?
      (fun t => t.id == 5)) = some ⟨5, "b", none, true, 1, 1⟩ := by decide

/-! ## C1 -/

/-- C1 counterexample: the claim says creating a todo with `description = ""`
persists and returns the empty string; on the code (`input.description ||
null`), creating with `description = ""` returns NULL instead. -/
theorem create_empty_description_is_null :
    (createTodo ⟨[], 1⟩ 0 ⟨"A", some ""⟩).1.description ≠ some "" := by
  decide

/-- C1 (amended): Create maps any falsy description — absent or the empty
string — to NULL, so the absent-vs-empty distinction is collapsed at Create:
the created and persisted record carries `description = none`, and the
client's `onChange` likewise converts an empty textarea back to null. -/
theorem create_falsy_description_to_null (st : Store) (now : Nat)
    (title : String) :
    (createTodo st now ⟨title, some ""⟩).1.description = none ∧
    (createTodo st now ⟨title, none⟩).1.description = none ∧
    (createTodo st now ⟨title, some ""⟩).1 ∈
      (createTodo st now ⟨title, some ""⟩).2.rows ∧
    descriptionOnChange "" = none := by
  refine ⟨rfl, rfl, ?_, rfl⟩
  simp [createTodo]

/-! ## C4 -/

/-- The affected-row count of the DELETE is positive exactly when some row
matched the id. -/
theorem rowCount_pos_iff (l : List Todo) (id : Nat) :
    0 < l.length - (l.filter (fun t => !(t.id == id))).length ↔
      ∃ t ∈ l, t.id = id := by
  induction l with
  | nil => simp
  | cons a l ih =>
    by_cases h : a.id = id
    · have hle := List.length_filter_le (fun t => !(t.id == id)) l
      rw [List.filter_cons_of_neg (by simp [h])]
      simp only [List.length_cons, List.mem_cons]
      constructor
      · intro _
        exact ⟨a, Or.inl rfl, h⟩
      · intro _
        omega
    · rw [List.filter_cons_of_pos (by simp [h])]
      simp only [List.length_cons, Nat.succ_sub_succ, List.mem_cons]
      rw [ih]
      constructor
      · rintro ⟨t, ht, hid⟩
        exact ⟨t, Or.inr ht, hid⟩
      · rintro ⟨t, rfl | ht, hid⟩
        · exact absurd hid h
        · exact ⟨t, ht, hid⟩

/-- C4: Delete returns `success = true` iff some row matched the id (and all
matching rows are removed); a missing id yields `success = false` with no
error — the result type is total — and non-matching rows survive. -/
theorem deleteTodo_success_iff (st : Store) (id : Nat) :
    ((deleteTodo st id).1.success = true ↔ ∃ t ∈ st.rows, t.id = id) ∧
    (∀ t ∈ (deleteTodo st id).2.rows, t.id ≠ id) ∧
    (∀ t ∈ st.rows, t.id ≠ id → t ∈ (deleteTodo st id).2.rows) := by
  refine ⟨?_, ?_, ?_⟩
  · simp only [deleteTodo, decide_eq_true_eq]
    exact rowCount_pos_iff st.rows id
  · intro t ht
    simp only [deleteTodo] at ht
    simp only [List.mem_filter, Bool.not_eq_true', beq_eq_false_iff_ne] at ht
    exact ht.2
  · intro t ht hne
    simp only [deleteTodo, List.mem_filter]
    exact ⟨ht, by simpa using hne⟩

/-! ## C7 -/

/-- C7: Read-All returns exactly the rows of the store (as a permutation),
ordered by `created_at` descending, and the empty list on an empty store. -/
theorem getTodos_returns_all_sorted (st : Store) :
    (getTodos st).Perm st.rows ∧
    List.Sorted byNewest (getTodos st) ∧
    (st.rows = [] → getTodos st = []) := by
  refine ⟨List.perm_insertionSort byNewest st.rows,
    List.sorted_insertionSort byNewest st.rows, fun h => ?_⟩
  simp [getTodos, h]

/-! ## C2 -/

/-- A sample row and store used to instantiate the hypothesis-bearing
theorems at concrete inputs. -/
def sampleRow : Todo := ⟨1, "A", some "d", false, 0, 0⟩

/-- A one-row store holding `sampleRow`, with the id sequence at 2. -/
def sampleStore : Store := ⟨[sampleRow], 2⟩

/-- C2: Update on an existing record applies exactly the fields present in
the input — an omitted field keeps the stored value, a provided field takes
the provided value, and `description` provided as an explicit null
overwrites with absence — while `created_at` is untouched, `updated_at` is
set to now, and the returned record is the persisted one. -/
theorem updateTodo_partial_fields (st : Store) (now : Nat)
    (input : UpdateTodoInput) (cur : Todo)
    (hnd : (st.rows.map Todo.id).Nodup) (hmem : cur ∈ st.rows)
    (hid : cur.id = input.id) :
    ∃ r st2, updateTodo st now input = .ok (r, st2) ∧
      r.id = cur.id ∧
      (input.title = none → r.title = cur.title) ∧
      (∀ s, input.title = some s → r.title = s) ∧
      (input.description = none → r.description = cur.description) ∧
      (∀ d, input.description = some d → r.description = d) ∧
      (input.completed = none → r.completed = cur.completed) ∧
      (∀ b, input.completed = some b → r.completed = b) ∧
      r.created_at = cur.created_at ∧
      r.updated_at = now ∧
      r ∈ st2.rows := by
  have hfind := find_by_id_of_mem st.rows input.id cur hnd hmem hid
  refine ⟨applyPatch input now cur,
    { st with rows := st.rows.map (fun t =>
        if t.id == input.id then applyPatch input now t else t) },
    ?_, rfl, ?_, ?_, ?_, ?_, ?_, ?_, rfl, rfl, ?_⟩
  · simp only [updateTodo, hfind]
  · intro h
    simp [applyPatch, h]
  · intro s h
    simp [applyPatch, h]
  · intro h
    simp [applyPatch, h]
  · intro d h
    simp [applyPatch, h]
  · intro h
    simp [applyPatch, h]
  · intro b h
    simp [applyPatch, h]
  · have hmap := List.mem_map_of_mem
      (fun t => if t.id == input.id then applyPatch input now t else t) hmem
    simpa [hid] using hmap

/-- C2 witness: updating the sample store's row with a new title and an
explicit null description. -/
theorem updateTodo_partial_fields_witness :
    ∃ r st2,
      updateTodo sampleStore 5 ⟨1, some "T", some none, none⟩ =
        .ok (r, st2) ∧
      r.id = sampleRow.id ∧
      ((⟨1, some "T", some none, none⟩ : UpdateTodoInput).title = none →
        r.title = sampleRow.title) ∧
      (∀ s, (⟨1, some "T", some none, none⟩ : UpdateTodoInput).title = some s →
        r.title = s) ∧
      ((⟨1, some "T", some none, none⟩ : UpdateTodoInput).description = none →
        r.description = sampleRow.description) ∧
      (∀ d,
        (⟨1, some "T", some none, none⟩ : UpdateTodoInput).description =
          some d → r.description = d) ∧
      ((⟨1, some "T", some none, none⟩ : UpdateTodoInput).completed = none →
        r.completed = sampleRow.completed) ∧
      (∀ b,
        (⟨1, some "T", some none, none⟩ : UpdateTodoInput).completed =
          some b → r.completed = b) ∧
      r.created_at = sampleRow.created_at ∧
      r.updated_at = 5 ∧
      r ∈ st2.rows :=
  updateTodo_partial_fields sampleStore 5 ⟨1, some "T", some none, none⟩
    sampleRow (by decide) (by decide) rfl

/-! ## C3 -/

/-- Writing `completed := c, updated_at := now` on the rows matching an id
moves the first match accordingly. -/
theorem find_map_set_completed (l : List Todo) (id : Nat) (c : Bool)
    (now : Nat) (cur : Todo)
    (h : l.find? (fun t => t.id == id) = some cur) :
    (l.map (fun t => if t.id == id then
        { t with completed := c, updated_at := now } else t)).find?
      (fun t => t.id == id) =
      some { cur with completed := c, updated_at := now } := by
  induction l with
  | nil => simp at h
  | cons a l ih =>
    by_cases ha : a.id = id
    · rw [List.find?_cons_of_pos _ (by simp [ha])] at h
      obtain rfl : a = cur := by injection h
      rw [List.map_cons, if_pos (by simp [ha])]
      exact List.find?_cons_of_pos _ (by simp [ha])
    · rw [List.find?_cons_of_neg _ (by simp [ha])] at h
      rw [List.map_cons, if_neg (by simp [ha]), List.find?_cons_of_neg _
        (by simp [ha])]
      exact ih h

/-- After a successful Toggle, looking the id up in the new store yields the
old row with `completed` negated and `updated_at` refreshed. -/
theorem toggleStore_find (st : Store) (now : Nat) (id : Nat) (cur : Todo)
    (h : st.rows.find? (fun t => t.id == id) = some cur) :
    (toggleStore st now id).rows.find? (fun t => t.id == id) =
      some { cur with completed := !cur.completed, updated_at := now } := by
  simp only [toggleStore, toggleTodo, h]
  exact find_map_set_completed st.rows id (!cur.completed) now cur h

/-- `n` successive sequential Toggle calls on the same id, the step index
serving as the clock. -/
def toggleN (id : Nat) : Nat → Store → Store
  | 0, st => st
  | n + 1, st => toggleN id n (toggleStore st n id)

/-- Sequential toggles alternate `completed` with the parity of the call
count and never touch `title`, `description` or `created_at`. -/
theorem toggleN_alternates (id : Nat) :
    ∀ (n : Nat) (st : Store) (cur : Todo),
      st.rows.find? (fun t => t.id == id) = some cur →
      ∃ c2, (toggleN id n st).rows.find? (fun t => t.id == id) = some c2 ∧
        c2.completed = Bool.xor cur.completed (decide (n % 2 = 1)) ∧
        c2.title = cur.title ∧
        c2.description = cur.description ∧
        c2.created_at = cur.created_at := by
  intro n
  induction n with
  | zero =>
    intro st cur h
    exact ⟨cur, h, by simp, rfl, rfl, rfl⟩
  | succ n ih =>
    intro st cur h
    have h1 := toggleStore_find st n id cur h
    obtain ⟨c2, hfind, hcomp, ht, hd, hc⟩ :=
      ih (toggleStore st n id) _ h1
    refine ⟨c2, hfind, ?_, ht, hd, hc⟩
    rw [hcomp]
    show Bool.xor (!cur.completed) (decide (n % 2 = 1)) =
      Bool.xor cur.completed (decide ((n + 1) % 2 = 1))
    have hpar : decide ((n + 1) % 2 = 1) = !decide (n % 2 = 1) := by
      rw [← decide_not, decide_eq_decide]
      omega
    have hxor : ∀ a b : Bool, Bool.xor (!a) b = Bool.xor a (!b) := by decide
    rw [hpar, hxor]

/-- C3: Toggle on an existing record returns and persists the record with
`completed` negated and `updated_at` set to now, leaving `id`, `title`,
`description` and `created_at` unchanged; `n` sequential toggles alternate
`completed` with the parity of `n`, so two toggles restore the original
value. -/
theorem toggleTodo_flips_only_completed (st : Store) (now : Nat) (id : Nat)
    (cur : Todo)
    (hnd : (st.rows.map Todo.id).Nodup) (hmem : cur ∈ st.rows)
    (hid : cur.id = id) :
    (∃ r st2, toggleTodo st now id = .ok (r, st2) ∧
      r.completed = !cur.completed ∧
      r.id = cur.id ∧
      r.title = cur.title ∧
      r.description = cur.description ∧
      r.created_at = cur.created_at ∧
      r.updated_at = now ∧
      st2.rows.find? (fun t => t.id == id) = some r) ∧
    (∀ n, ∃ c2,
      (toggleN id n st).rows.find? (fun t => t.id == id) = some c2 ∧
      c2.completed = Bool.xor cur.completed (decide (n % 2 = 1)) ∧
      c2.title = cur.title ∧
      c2.description = cur.description ∧
      c2.created_at = cur.created_at) ∧
    (∃ c2, (toggleN id 2 st).rows.find? (fun t => t.id == id) = some c2 ∧
      c2.completed = cur.completed) := by
  have hfind := find_by_id_of_mem st.rows id cur hnd hmem hid
  refine ⟨?_, fun n => toggleN_alternates id n st cur hfind, ?_⟩
  · refine ⟨{ cur with completed := !cur.completed, updated_at := now },
      { st with rows := st.rows.map (fun t => if t.id == id then
          { t with completed := !cur.completed, updated_at := now }
        else t) },
      ?_, rfl, rfl, rfl, rfl, rfl, rfl, ?_⟩
    · simp only [toggleTodo, hfind]
    · exact find_map_set_completed st.rows id (!cur.completed) now cur hfind
  · obtain ⟨c2, hf, hc, _, _, _⟩ := toggleN_alternates id 2 st cur hfind
    simp only [Nat.reduceMod, decide_eq_true_eq] at hc
    refine ⟨c2, hf, ?_⟩
    simpa using hc

/-- C3 witness: toggling the sample store's row. -/
theorem toggleTodo_flips_only_completed_witness :
    (∃ r st2, toggleTodo sampleStore 5 1 = .ok (r, st2) ∧
      r.completed = !sampleRow.completed ∧
      r.id = sampleRow.id ∧
      r.title = sampleRow.title ∧
      r.description = sampleRow.description ∧
      r.created_at = sampleRow.created_at ∧
      r.updated_at = 5 ∧
      st2.rows.find? (fun t => t.id == 1) = some r) ∧
    (∀ n, ∃ c2,
      (toggleN 1 n sampleStore).rows.find? (fun t => t.id == 1) = some c2 ∧
      c2.completed = Bool.xor sampleRow.completed (decide (n % 2 = 1)) ∧
      c2.title = sampleRow.title ∧
      c2.description = sampleRow.description ∧
      c2.created_at = sampleRow.created_at) ∧
    (∃ c2, (toggleN 1 2 sampleStore).rows.find? (fun t => t.id == 1) =
        some c2 ∧
      c2.completed = sampleRow.completed) :=
  toggleTodo_flips_only_completed sampleStore 5 1 sampleRow (by decide)
    (by decide) rfl

/-! ## C5 -/

/-- C5: when no record matches the id, Toggle fails with a NotFound error
naming the id, Update fails with the generic not-found message, and in both
cases the store is left exactly as it was. -/
theorem update_toggle_notFound (st : Store) (now : Nat) (id : Nat)
    (input : UpdateTodoInput) (hid : input.id = id)
    (h : ∀ t ∈ st.rows, t.id ≠ id) :
    toggleTodo st now id =
      .error ("Todo with id " ++ toString id ++ " not found") ∧
    updateTodo st now input = .error "Todo not found" ∧
    toggleStore st now id = st ∧
    updateStore st now input = st := by
  have hf : st.rows.find? (fun t => t.id == id) = none :=
    List.find?_eq_none.mpr (fun t ht => by simpa using h t ht)
  have hf2 : st.rows.find? (fun t => t.id == input.id) = none := by
    rw [hid]
    exact hf
  refine ⟨?_, ?_, ?_, ?_⟩ <;>
    simp [toggleTodo, updateTodo, toggleStore, updateStore, hf, hf2]

/-- C5 witness: id 9 matches nothing in the sample store. -/
theorem update_toggle_notFound_witness :
    toggleTodo sampleStore 5 9 =
      .error ("Todo with id " ++ toString 9 ++ " not found") ∧
    updateTodo sampleStore 5 ⟨9, none, none, none⟩ = .error "Todo not found" ∧
    toggleStore sampleStore 5 9 = sampleStore ∧
    updateStore sampleStore 5 ⟨9, none, none, none⟩ = sampleStore :=
  update_toggle_notFound sampleStore 5 9 ⟨9, none, none, none⟩ rfl (by decide)

/-! ## C8 -/

/-- C8: a successful Update always writes `updated_at := now` — including
the empty patch `{id}` — so when the clock has advanced past the record's
previous `updated_at`, the new `updated_at` is strictly greater, while every
other field of the record is unchanged by the empty patch. -/
theorem updateTodo_empty_patch_bumps_updated_at (st : Store) (now : Nat)
    (id : Nat) (cur : Todo)
    (hnd : (st.rows.map Todo.id).Nodup) (hmem : cur ∈ st.rows)
    (hid : cur.id = id) (hclk : cur.updated_at < now) :
    ∃ r st2, updateTodo st now ⟨id, none, none, none⟩ = .ok (r, st2) ∧
      r.updated_at = now ∧
      cur.updated_at < r.updated_at ∧
      r.id = cur.id ∧
      r.title = cur.title ∧
      r.description = cur.description ∧
      r.completed = cur.completed ∧
      r.created_at = cur.created_at ∧
      (∀ inp r2 st3, updateTodo st now inp = .ok (r2, st3) →
        r2.updated_at = now) := by
  have hfind := find_by_id_of_mem st.rows id cur hnd hmem hid
  refine ⟨applyPatch ⟨id, none, none, none⟩ now cur,
    { st with rows := st.rows.map (fun t =>
        if t.id == id then applyPatch ⟨id, none, none, none⟩ now t else t) },
    ?_, rfl, ?_, rfl, rfl, rfl, rfl, rfl, ?_⟩
  · simp only [updateTodo, hfind]
  · exact hclk
  · intro inp r2 st3 hok
    cases hf : st.rows.find? (fun t => t.id == inp.id) with
    | none => simp [updateTodo, hf] at hok
    | some c =>
      simp only [updateTodo, hf, Except.ok.injEq, Prod.mk.injEq] at hok
      rw [← hok.1]
      rfl

/-- C8 witness: the empty patch on the sample store at time 5. -/
theorem updateTodo_empty_patch_bumps_updated_at_witness :
    sampleRow.updated_at < 5 ∧
    (∃ r st2, updateTodo sampleStore 5 ⟨1, none, none, none⟩ = .ok (r, st2) ∧
      r.updated_at = 5 ∧
      sampleRow.updated_at < r.updated_at ∧
      r.id = sampleRow.id ∧
      r.title = sampleRow.title ∧
      r.description = sampleRow.description ∧
      r.completed = sampleRow.completed ∧
      r.created_at = sampleRow.created_at ∧
      (∀ inp r2 st3, updateTodo sampleStore 5 inp = .ok (r2, st3) →
        r2.updated_at = 5)) :=
  ⟨by decide,
    updateTodo_empty_patch_bumps_updated_at sampleStore 5 1 sampleRow
      (by decide) (by decide) rfl (by decide)⟩

/-- C7 witness: the theorem applied to the empty store. -/
theorem getTodos_returns_all_sorted_witness :
    (getTodos ⟨[], 0⟩).Perm (Store.mk [] 0).rows ∧
    List.Sorted byNewest (getTodos ⟨[], 0⟩) ∧
    ((Store.mk [] 0).rows = [] → getTodos ⟨[], 0⟩ = []) :=
  getTodos_returns_all_sorted ⟨[], 0⟩

/-! ## C6 -/

/-- No operation ever decreases the id sequence. -/
theorem nextId_mono (st : Store) (now : Nat) (op : Op) :
    st.nextId ≤ (applyOp st now op).nextId := by
  cases op with
  | create input =>
    simp only [applyOp, createTodo]
    exact Nat.le_succ _
  | update input =>
    simp only [applyOp, updateStore]
    cases hf : st.rows.find? (fun t => t.id == input.id) with
    | none => simp [updateTodo, hf]
    | some c => simp [updateTodo, hf]
  | toggle id =>
    simp only [applyOp, toggleStore]
    cases hf : st.rows.find? (fun t => t.id == id) with
    | none => simp [toggleTodo, hf]
    | some c => simp [toggleTodo, hf]
  | del id => simp [applyOp, deleteTodo]

/-- Every id a run hands out is at least the starting sequence value. -/
theorem createdIds_lower : ∀ (ops : List (Nat × Op)) (st : Store),
    ∀ x ∈ createdIds st ops, st.nextId ≤ x := by
  intro ops
  induction ops with
  | nil =>
    intro st x hx
    simp [createdIds] at hx
  | cons p rest ih =>
    intro st x hx
    obtain ⟨now, op⟩ := p
    cases op with
    | create input =>
      simp only [createdIds] at hx
      rcases List.mem_cons.mp hx with rfl | hx2
      · exact Nat.le_refl _
      · exact Nat.le_trans (nextId_mono st now (.create input)) (ih _ x hx2)
    | update input =>
      simp only [createdIds] at hx
      exact Nat.le_trans (nextId_mono st now (.update input)) (ih _ x hx)
    | toggle id =>
      simp only [createdIds] at hx
      exact Nat.le_trans (nextId_mono st now (.toggle id)) (ih _ x hx)
    | del id =>
      simp only [createdIds] at hx
      exact Nat.le_trans (nextId_mono st now (.del id)) (ih _ x hx)

/-- The ids handed out by the Create steps of any run are pairwise
distinct: ids are never reused. -/
theorem createdIds_nodup : ∀ (ops : List (Nat × Op)) (st : Store),
    (createdIds st ops).Nodup := by
  intro ops
  induction ops with
  | nil =>
    intro st
    simp [createdIds]
  | cons p rest ih =>
    intro st
    obtain ⟨now, op⟩ := p
    cases op with
    | create input =>
      simp only [createdIds]
      rw [List.nodup_cons]
      refine ⟨?_, ih _⟩
      intro hmem
      have hlow := createdIds_lower rest (applyOp st now (.create input))
        _ hmem
      have hnext : (applyOp st now (Op.create input)).nextId =
        st.nextId + 1 := rfl
      omega
    | update input => simpa [createdIds] using ih _
    | toggle id => simpa [createdIds] using ih _
    | del id => simpa [createdIds] using ih _

/-- C6: Create returns (and persists) a record with `completed = false` and
`created_at = updated_at`, whose id is fresh with respect to the store; over
any run of operations, the ids assigned by Create are pairwise distinct. -/
theorem createTodo_fresh_unique (st : Store) (now : Nat)
    (input : CreateTodoInput) (hwf : st.WF) :
    (createTodo st now input).1.completed = false ∧
    (createTodo st now input).1.created_at =
      (createTodo st now input).1.updated_at ∧
    (createTodo st now input).1 ∈ (createTodo st now input).2.rows ∧
    (createTodo st now input).1.id ∉ st.rows.map Todo.id ∧
    (∀ ops, (createdIds st ops).Nodup) := by
  refine ⟨rfl, rfl, ?_, ?_, fun ops => createdIds_nodup ops st⟩
  · simp [createTodo]
  · intro hmem
    obtain ⟨t, ht, hid⟩ := List.mem_map.mp hmem
    have hbound := hwf.1 t ht
    have h2 : (createTodo st now input).1.id = st.nextId := rfl
    rw [h2] at hid
    omega

/-- C6 witness: creating in the sample store. -/
theorem createTodo_fresh_unique_witness :
    Store.WF sampleStore ∧
    ((createTodo sampleStore 7 ⟨"B", none⟩).1.completed = false ∧
     (createTodo sampleStore 7 ⟨"B", none⟩).1.created_at =
       (createTodo sampleStore 7 ⟨"B", none⟩).1.updated_at ∧
     (createTodo sampleStore 7 ⟨"B", none⟩).1 ∈
       (createTodo sampleStore 7 ⟨"B", none⟩).2.rows ∧
     (createTodo sampleStore 7 ⟨"B", none⟩).1.id ∉
       sampleStore.rows.map Todo.id ∧
     (∀ ops, (createdIds sampleStore ops).Nodup)) :=
  ⟨⟨by decide, by decide, by decide⟩,
    createTodo_fresh_unique sampleStore 7 ⟨"B", none⟩
      ⟨by decide, by decide, by decide⟩⟩

/-! ## C9 -/

/-- Mapping an id-preserving function over the rows leaves the id column
unchanged. -/
theorem map_id_column (l : List Todo) (f : Todo → Todo)
    (hid : ∀ t, (f t).id = t.id) :
    (l.map f).map Todo.id = l.map Todo.id := by
  rw [List.map_map]
  exact List.map_congr_left (fun t _ => hid t)

/-- A row rewrite that preserves ids and creation times, and keeps
`created_at ≤ updated_at` on every row it produces, preserves the store
invariants. -/
theorem WF_map (st : Store) (f : Todo → Todo)
    (hid : ∀ t, (f t).id = t.id)
    (hcu : ∀ t ∈ st.rows, (f t).created_at ≤ (f t).updated_at)
    (hwf : st.WF) :
    Store.WF { st with rows := st.rows.map f } := by
  obtain ⟨h1, h2, h3⟩ := hwf
  refine ⟨?_, ?_, ?_⟩
  · intro t ht
    obtain ⟨u, hu, rfl⟩ := List.mem_map.mp ht
    rw [hid]
    exact h1 u hu
  · show ((st.rows.map f).map Todo.id).Nodup
    rw [map_id_column st.rows f hid]
    exact h2
  · intro t ht
    obtain ⟨u, hu, rfl⟩ := List.mem_map.mp ht
    exact hcu u hu

/-- A row rewrite that preserves ids and creation times keeps, for every
old row, a row with the same id and creation time. -/
theorem map_preserves_ids (l : List Todo) (f : Todo → Todo)
    (hid : ∀ t, (f t).id = t.id)
    (hcr : ∀ t, (f t).created_at = t.created_at) :
    ∀ t ∈ l, ∃ u ∈ l.map f, u.id = t.id ∧ u.created_at = t.created_at :=
  fun t ht => ⟨f t, List.mem_map_of_mem f ht, hid t, hcr t⟩

/-- C9: every operation preserves the store invariants — ids below the
sequence counter, distinct ids, `created_at ≤ updated_at` — never decreases
the id sequence, and never changes the id or `created_at` of a surviving
record (a record either disappears or keeps both). -/
theorem applyOp_preserves_invariants (st : Store) (now : Nat) (op : Op)
    (hwf : st.WF) (hclk : ∀ t ∈ st.rows, t.updated_at ≤ now) :
    (applyOp st now op).WF ∧
    st.nextId ≤ (applyOp st now op).nextId ∧
    (∀ t ∈ st.rows,
      (∀ u ∈ (applyOp st now op).rows, u.id ≠ t.id) ∨
      (∃ u ∈ (applyOp st now op).rows,
        u.id = t.id ∧ u.created_at = t.created_at)) := by
  obtain ⟨h1, h2, h3⟩ := hwf
  refine ⟨?_, nextId_mono st now op, ?_⟩
  · cases op with
    | create input =>
      simp only [applyOp, createTodo]
      refine ⟨?_, ?_, ?_⟩
      · intro t ht
        rcases List.mem_append.mp ht with hm | hm
        · exact Nat.lt_succ_of_lt (h1 t hm)
        · rw [List.mem_singleton.mp hm]
          exact Nat.lt_succ_self _
      · show ((st.rows ++ [_]).map Todo.id).Nodup
        rw [List.map_append, List.nodup_append]
        refine ⟨h2, List.nodup_singleton _, ?_⟩
        intro a ha hb
        simp only [List.map_cons, List.map_nil, List.mem_singleton] at hb
        obtain ⟨t, ht, hid⟩ := List.mem_map.mp ha
        have := h1 t ht
        omega
      · intro t ht
        rcases List.mem_append.mp ht with hm | hm
        · exact h3 t hm
        · rw [List.mem_singleton.mp hm]
    | update input =>
      simp only [applyOp, updateStore]
      cases hf : st.rows.find? (fun t => t.id == input.id) with
      | none =>
        simp only [updateTodo, hf]
        exact ⟨h1, h2, h3⟩
      | some c =>
        simp only [updateTodo, hf]
        refine WF_map st _ ?_ ?_ ⟨h1, h2, h3⟩
        · intro t
          by_cases h : t.id = input.id <;> simp [h, applyPatch]
        · intro t ht
          by_cases h : t.id = input.id
          · rw [if_pos (show (t.id == input.id) = true by simp [h])]
            show t.created_at ≤ now
            exact Nat.le_trans (h3 t ht) (hclk t ht)
          · rw [if_neg (show ¬ (t.id == input.id) = true by simp [h])]
            exact h3 t ht
    | toggle id =>
      simp only [applyOp, toggleStore]
      cases hf : st.rows.find? (fun t => t.id == id) with
      | none =>
        simp only [toggleTodo, hf]
        exact ⟨h1, h2, h3⟩
      | some c =>
        simp only [toggleTodo, hf]
        refine WF_map st _ ?_ ?_ ⟨h1, h2, h3⟩
        · intro t
          by_cases h : t.id = id <;> simp [h]
        · intro t ht
          by_cases h : t.id = id
          · rw [if_pos (show (t.id == id) = true by simp [h])]
            show t.created_at ≤ now
            exact Nat.le_trans (h3 t ht) (hclk t ht)
          · rw [if_neg (show ¬ (t.id == id) = true by simp [h])]
            exact h3 t ht
    | del id =>
      simp only [applyOp, deleteTodo]
      refine ⟨?_, ?_, ?_⟩
      · intro t ht
        exact h1 t (List.mem_of_mem_filter ht)
      · show ((st.rows.filter _).map Todo.id).Nodup
        exact List.Nodup.sublist (List.Sublist.map Todo.id
          (List.filter_sublist st.rows)) h2
      · intro t ht
        exact h3 t (List.mem_of_mem_filter ht)
  · cases op with
    | create input =>
      intro t ht
      refine Or.inr ⟨t, ?_, rfl, rfl⟩
      simp only [applyOp, createTodo]
      exact List.mem_append_left _ ht
    | update input =>
      intro t ht
      simp only [applyOp, updateStore]
      cases hf : st.rows.find? (fun t => t.id == input.id) with
      | none =>
        simp only [updateTodo, hf]
        exact Or.inr ⟨t, ht, rfl, rfl⟩
      | some c =>
        simp only [updateTodo, hf]
        refine Or.inr (map_preserves_ids st.rows _ ?_ ?_ t ht)
        · intro u
          by_cases h : u.id = input.id <;> simp [h, applyPatch]
        · intro u
          by_cases h : u.id = input.id <;> simp [h, applyPatch]
    | toggle id =>
      intro t ht
      simp only [applyOp, toggleStore]
      cases hf : st.rows.find? (fun t => t.id == id) with
      | none =>
        simp only [toggleTodo, hf]
        exact Or.inr ⟨t, ht, rfl, rfl⟩
      | some c =>
        simp only [toggleTodo, hf]
        refine Or.inr (map_preserves_ids st.rows _ ?_ ?_ t ht)
        · intro u
          by_cases h : u.id = id <;> simp [h]
        · intro u
          by_cases h : u.id = id <;> simp [h]
    | del id =>
      intro t ht
      simp only [applyOp, deleteTodo]
      by_cases hq : t.id = id
      · refine Or.inl ?_
        intro u hu heq
        have hpu := List.of_mem_filter hu
        simp only [Bool.not_eq_true', beq_eq_false_iff_ne] at hpu
        exact hpu (heq ▸ hq)
      · refine Or.inr ⟨t, ?_, rfl, rfl⟩
        exact List.mem_filter.mpr ⟨ht, by simp [hq]⟩

/-- C9 witness: toggling the sample store's row at time 5. -/
theorem applyOp_preserves_invariants_witness :
    Store.WF sampleStore ∧
    (∀ t ∈ sampleStore.rows, t.updated_at ≤ 5) ∧
    ((applyOp sampleStore 5 (.toggle 1)).WF ∧
     sampleStore.nextId ≤ (applyOp sampleStore 5 (.toggle 1)).nextId ∧
     (∀ t ∈ sampleStore.rows,
       (∀ u ∈ (applyOp sampleStore 5 (.toggle 1)).rows, u.id ≠ t.id) ∨
       (∃ u ∈ (applyOp sampleStore 5 (.toggle 1)).rows,
         u.id = t.id ∧ u.created_at = t.created_at))) :=
  ⟨⟨by decide, by decide, by decide⟩, by decide,
    applyOp_preserves_invariants sampleStore 5 (.toggle 1)
      ⟨by decide, by decide, by decide⟩ (by decide)⟩

/-! ## C10 -/

/-- C10: in the client's demo-mode fallback, toggling or deleting an id not
present in the local list leaves the list exactly as it was and surfaces no
error, whereas the server Toggle on an id matching no row fails with its
NotFound error. -/
theorem demo_missing_id_noop (todos : List Todo) (now now2 : Nat) (id : Nat)
    (st : Store)
    (h : ∀ t ∈ todos, t.id ≠ id) (h2 : ∀ t ∈ st.rows, t.id ≠ id) :
    handleToggleDemo todos now id = todos ∧
    handleDeleteDemo todos id = todos ∧
    toggleTodo st now2 id =
      .error ("Todo with id " ++ toString id ++ " not found") := by
  refine ⟨?_, ?_, ?_⟩
  · have hkeep : ∀ t ∈ todos,
        (if t.id == id then
          { t with completed := !t.completed, updated_at := now }
        else t) = t := by
      intro t ht
      rw [if_neg (show ¬ (t.id == id) = true by simp [h t ht])]
    rw [handleToggleDemo, List.map_congr_left hkeep, List.map_id']
  · rw [handleDeleteDemo, List.filter_eq_self.mpr]
    intro t ht
    simp [h t ht]
  · have hf : st.rows.find? (fun t => t.id == id) = none :=
      List.find?_eq_none.mpr (fun t ht => by simpa using h2 t ht)
    simp [toggleTodo, hf]

/-- C10 witness: id 9 is absent both from a one-element demo list and from
the sample store. -/
theorem demo_missing_id_noop_witness :
    handleToggleDemo [sampleRow] 5 9 = [sampleRow] ∧
    handleDeleteDemo [sampleRow] 9 = [sampleRow] ∧
    toggleTodo sampleStore 6 9 =
      .error ("Todo with id " ++ toString 9 ++ " not found") :=
  demo_missing_id_noop [sampleRow] 5 6 9 sampleStore (by decide) (by decide)

/-- C4 witness: deleting id 1 from the sample store. -/
theorem deleteTodo_success_iff_witness :
    ((deleteTodo sampleStore 1).1.success = true ↔
      ∃ t ∈ sampleStore.rows, t.id = 1) ∧
    (∀ t ∈ (deleteTodo sampleStore 1).2.rows, t.id ≠ 1) ∧
    (∀ t ∈ sampleStore.rows, t.id ≠ 1 →
      t ∈ (deleteTodo sampleStore 1).2.rows) :=
  deleteTodo_success_iff sampleStore 1
